import Mathlib

/-!
Verification of the LMC (Little Man Computer) assembler `assembler.py`.

The model is a shallow embedding of the two-pass translation pipeline:
`parse_line`, `parse_operand`, `first_pass`, `assemble`, `generate_c_code`.
Python strings are modelled as `List Char` (the source language is ASCII;
unicode-only behaviours of Python `str`/`int` are outside the model's scope).
Python exceptions are modelled with `Except`; the uncaught `IndexError`
produced by an out-of-range list assignment is a separate failure
constructor, since it is not one of the assembler's structured errors.
-/

namespace LMC

/-- Python strings are modelled as lists of characters. -/
abbrev Str := List Char

/-- Characters matched by `\s` of `re` and stripped by `str.strip`
(ASCII range): space, tab, newline, carriage return, vertical tab (0x0b)
and form feed (0x0c). -/
def pySpace (c : Char) : Bool :=
  c = ' ' ∨ c = '\t' ∨ c = '\n' ∨ c = '\r' ∨ c = Char.ofNat 11 ∨ c = Char.ofNat 12

/-- Model of `str.strip()`: drop leading and trailing whitespace. -/
def pyStrip (s : Str) : Str :=
  ((s.dropWhile pySpace).reverse.dropWhile pySpace).reverse

/-- Model of `re.sub(r'//.*', '', line)`: delete everything from the first
`//` on (input lines contain no embedded newline). -/
def stripComment : Str → Str
  | [] => []
  | [c] => [c]
  | c :: d :: rest =>
    if c = '/' ∧ d = '/' then []
    else c :: stripComment (d :: rest)

/-- Model of `re.split(r'\s+', line)` on an already-stripped line:
split into maximal runs of non-whitespace characters (no empty tokens,
which is what `re.split` yields once the line has been stripped). -/
def splitWsGo : Str → Str → List Str
  | [], acc => if acc = [] then [] else [acc.reverse]
  | c :: rest, acc =>
    if pySpace c then
      if acc = [] then splitWsGo rest [] else acc.reverse :: splitWsGo rest []
    else splitWsGo rest (c :: acc)

def splitWs (cs : Str) : List Str := splitWsGo cs []

/-- Model of `str.upper()` (ASCII: maps a-z to A-Z; characters outside
a-z are only ever compared against the ASCII mnemonic names, where both
the model and Python leave them unequal to every mnemonic). -/
def pyUpper (s : Str) : Str := s.map Char.toUpper

/-- Python truthiness of an optional string (`if label:` / `if instruction:`):
`None` and the empty string are falsy. -/
def truthy : Option Str → Bool
  | none => false
  | some s => s ≠ []

/-- Result of `LMCAssembler.parse_line`: `(label, instruction, operand)`. -/
structure ParsedLine where
  label : Option Str
  instruction : Option Str
  operand : Option Str
deriving DecidableEq

/-- Model of `LMCAssembler.parse_line` (the `line_number` parameter of the
source is ignored by the source itself). Strips the comment and surrounding
whitespace, splits on whitespace; a first token ending in `:` is the label
(colon removed); the next token, upper-cased, is the mnemonic; the token
after that, verbatim, is the operand; extra tokens are ignored. -/
def parse_line (raw : Str) : ParsedLine :=
  let cleaned := pyStrip (stripComment raw)
  match splitWs cleaned with
  | [] => ⟨none, none, none⟩
  | t0 :: rest =>
    let lp : Option Str × List Str :=
      if t0.getLast? = some ':' then (some t0.dropLast, rest)
      else (none, t0 :: rest)
    match lp.2 with
    | [] => ⟨lp.1, none, none⟩
    | i :: ops => ⟨lp.1, some (pyUpper i), ops.head?⟩

/-! ## Python integer literal parsing (`int(s)` / `int(s, 16)` / `int(s, 2)`) -/

/-- Value of one digit character under base `b` (0-9, a-z, A-Z),
`none` when the character is not a digit of that base. -/
def digitVal? (b : Nat) (c : Char) : Option Nat :=
  if '0' ≤ c ∧ c ≤ '9' then
    (if c.toNat - 48 < b then some (c.toNat - 48) else none)
  else if 'a' ≤ c ∧ c ≤ 'z' then
    (if c.toNat - 87 < b then some (c.toNat - 87) else none)
  else if 'A' ≤ c ∧ c ≤ 'Z' then
    (if c.toNat - 55 < b then some (c.toNat - 55) else none)
  else none

/-- Digit run after the first digit: single underscores are allowed
between digits (Python 3 numeric-literal underscores), never doubled
and never trailing. -/
def digitsVal (b : Nat) : Nat → Str → Option Nat
  | acc, [] => some acc
  | acc, c :: rest =>
    if c = '_' then
      match rest with
      | c2 :: rest2 =>
        (match digitVal? b c2 with
         | some d => digitsVal b (acc * b + d) rest2
         | none => none)
      | [] => none
    else
      match digitVal? b c with
      | some d => digitsVal b (acc * b + d) rest
      | none => none

/-- Nonempty digit run; a single leading underscore is allowed only right
after a radix tag (`0x_ff` is accepted by `int`, `_ff` is not). -/
def pyIntDigits (b : Nat) (allowU : Bool) : Str → Option Nat
  | [] => none
  | c :: rest =>
    if c = '_' then
      if allowU then
        match rest with
        | c2 :: rest2 =>
          (match digitVal? b c2 with
           | some d => digitsVal b d rest2
           | none => none)
        | [] => none
      else none
    else
      match digitVal? b c with
      | some d => digitsVal b d rest
      | none => none

/-- Strip the radix tag `0x`/`0X` (base 16) or `0b`/`0B` (base 2) that
`int(s, base)` accepts; returns whether a tag was removed. -/
def stripRadixTag (b : Nat) (cs : Str) : Bool × Str :=
  match cs with
  | c0 :: c :: rest =>
    if c0 = '0' ∧ b = 16 ∧ (c = 'x' ∨ c = 'X') then (true, rest)
    else if c0 = '0' ∧ b = 2 ∧ (c = 'b' ∨ c = 'B') then (true, rest)
    else (false, c0 :: c :: rest)
  | cs => (false, cs)

/-- Model of Python `int(s, b)` for `b ∈ {2, 10, 16}` on ASCII tokens
without surrounding whitespace (the assembler only passes tokens produced
by splitting on whitespace): optional sign, optional radix tag, nonempty
digit run with optional single underscores. `none` models `ValueError`. -/
def pyInt (b : Nat) (cs : Str) : Option Int :=
  let sp : Int × Str :=
    match cs with
    | c :: rest =>
      if c = '-' then (-1, rest) else if c = '+' then (1, rest) else (1, c :: rest)
    | [] => (1, [])
  let pre := stripRadixTag b sp.2
  match pyIntDigits b pre.1 pre.2 with
  | some n => some (sp.1 * Int.ofNat n)
  | none => none

/-- Boolean test for `s.startswith(t)`. -/
def beginsWith : Str → Str → Bool
  | [], _ => true
  | _ :: _, [] => false
  | p :: ps, c :: cs => p = c && beginsWith ps cs

/-! ## Errors -/

/-- The four structured `AssemblyError` subclasses; each carries the line
number embedded in its message. -/
inductive AsmError where
  | invalidInstruction (line : Nat)
  | duplicateLabel (line : Nat)
  | operandRange (line : Nat)
  | invalidOperand (line : Nat)
deriving DecidableEq

/-- A failure of `assemble`: a structured `AssemblyError`, or the uncaught
Python `IndexError` from assigning past the end of the memory list. -/
inductive AsmFailure where
  | asmError (e : AsmError)
  | indexError
deriving DecidableEq

instance exceptDecEq {ε α : Type} [DecidableEq ε] [DecidableEq α] :
    DecidableEq (Except ε α)
  | Except.ok a, Except.ok b =>
    if h : a = b then isTrue (by rw [h])
    else isFalse (fun hc => h (by injection hc))
  | Except.ok a, Except.error e => isFalse (fun hc => Except.noConfusion hc)
  | Except.error d, Except.ok b => isFalse (fun hc => Except.noConfusion hc)
  | Except.error d, Except.error e =>
    if h : d = e then isTrue (by rw [h])
    else isFalse (fun hc => h (by injection hc))

/-- Model of `LMCAssembler.parse_operand(operand_str, line_number)`.
The radix is selected by the (case-sensitive) `0x` / `0b` test of the
source; note the raised error says `line {line_number + 1}` although every
caller already passes a 1-based line number. -/
def parse_operand (s : Str) (line_number : Nat) : Except AsmError Int :=
  let r :=
    if beginsWith ('0' :: 'x' :: []) s then pyInt 16 s
    else if beginsWith ('0' :: 'b' :: []) s then pyInt 2 s
    else pyInt 10 s
  match r with
  | some v => Except.ok v
  | none => Except.error (AsmError.invalidOperand (line_number + 1))

/-! ## The instruction table and the label table -/

def sADD : Str := "ADD".data
def sSUB : Str := "SUB".data
def sSTA : Str := "STA".data
def sLDA : Str := "LDA".data
def sBRA : Str := "BRA".data
def sBRZ : Str := "BRZ".data
def sBRP : Str := "BRP".data
def sINP : Str := "INP".data
def sOUT : Str := "OUT".data
def sHLT : Str := "HLT".data
def sDAT : Str := "DAT".data
def sMUL : Str := "MUL".data

/-- Model of `self.INSTRUCTIONS.get(instruction)`: the opcode string of the
`INSTRUCTIONS` dict, where both a missing key and the `DAT` entry (whose
stored value is Python `None`) yield `none` — `assemble` only ever tests
the result for `None`-ness after the `DAT` branch has been taken. -/
def instructionsGet (instr : Str) : Option Str :=
  if instr = sADD then some ("1".data)
  else if instr = sSUB then some ("2".data)
  else if instr = sSTA then some ("3".data)
  else if instr = sLDA then some ("5".data)
  else if instr = sBRA then some ("6".data)
  else if instr = sBRZ then some ("7".data)
  else if instr = sBRP then some ("8".data)
  else if instr = sINP then some ("901".data)
  else if instr = sOUT then some ("902".data)
  else if instr = sHLT then some ("000".data)
  else if instr = sMUL then some ("4".data)
  else none

/-- Label table: a Python dict with string keys modelled as an association
list in insertion order (keys are unique because `first_pass` checks
membership before inserting). -/
def lookupL : List (Str × Nat) → Str → Option Nat
  | [], _ => none
  | (k, v) :: rest, key => if k = key then some v else lookupL rest key

/-! ## Pass 1 -/

/-- Address bump of one line in `first_pass`:
`if instruction and instruction != 'DAT': address += 1`
`elif instruction == "DAT": address += 1`. -/
def fpAddr (instruction : Option Str) (addr : Nat) : Nat :=
  if truthy instruction ∧ instruction ≠ some sDAT then addr + 1
  else if instruction = some sDAT then addr + 1
  else addr

/-- The loop of `first_pass` over `enumerate(lines)`: `idx` is the 0-based
line index, `addr` the running address, `tbl` the label table built so far. -/
def fpGo : List Str → Nat → Nat → List (Str × Nat) → Except AsmError (List (Str × Nat))
  | [], _, _, tbl => Except.ok tbl
  | line :: rest, idx, addr, tbl =>
    let p := parse_line line
    if truthy p.label then
      let lab := p.label.getD []
      if (lookupL tbl lab).isSome then
        Except.error (AsmError.duplicateLabel (idx + 1))
      else fpGo rest (idx + 1) (fpAddr p.instruction addr) (tbl ++ [(lab, addr)])
    else fpGo rest (idx + 1) (fpAddr p.instruction addr) tbl

/-- Model of `LMCAssembler.first_pass`. -/
def first_pass (lines : List Str) : Except AsmError (List (Str × Nat)) :=
  fpGo lines 0 0 []

/-! ## Pass 2 -/

/-- `int()` applied to a string of decimal digits (the source only applies
`int` this way to the strings `"901"`, `"902"`, `"000"` and to
`opcode + str(operand_address).zfill(2)`, which are all digit strings). -/
def decValGo : Str → Nat → Nat
  | [], acc => acc
  | c :: rest, acc => decValGo rest (acc * 10 + (c.toNat - 48))

def decVal (s : Str) : Nat := decValGo s 0

/-- Model of `str(n)` for a natural number: decimal digits via a fuel-bounded
loop (`n + 1` is always enough fuel since `n / 10 < n` for `n ≥ 10`). -/
def toDigitsGo : Nat → Nat → Str → Str
  | 0, _, acc => acc
  | fuel + 1, n, acc =>
    if n < 10 then Nat.digitChar n :: acc
    else toDigitsGo fuel (n / 10) (Nat.digitChar (n % 10) :: acc)

def natRepr (n : Nat) : Str := toDigitsGo (n + 1) n []

/-- Model of `str(v)` for a Python int. -/
def pyStrInt (v : Int) : Str :=
  if v < 0 then '-' :: natRepr v.natAbs else natRepr v.toNat

/-- Zero-padding on the left to width `w` (no sign handling; used where the
argument is known to be nonnegative, e.g. `f"{address:02d}"` and
`str(operand_address).zfill(2)` with `operand_address ≥ 0`). -/
def padLeft (w : Nat) (s : Str) : Str := List.replicate (w - s.length) '0' ++ s

/-- Model of `str.zfill(w)`: sign-aware zero padding. -/
def pyZfill (w : Nat) (s : Str) : Str :=
  match s with
  | c :: rest => if c = '-' ∨ c = '+' then c :: padLeft (w - 1) rest else padLeft w s
  | [] => padLeft w s

/-- One listing line. The three `machine_code.append` format strings of the
source (`f"{address:02d}: {str(value).zfill(3)}"` for `DAT`,
`f"{address:02d}: {opcode}"` for I/O and HLT whose opcodes are already the
3-digit strings `901`/`902`/`000`, and
`f"{address:02d}: {str(instruction_code).zfill(3)}"`) all coincide with
this rendering of the stored word. -/
def listingEntry (addr : Nat) (w : Int) : Str :=
  padLeft 2 (natRepr addr) ++ (": ".data) ++ pyZfill 3 (pyStrInt w)

/-- Operand resolution of pass 2 (source lines 135-140): the label table is
consulted first and a hit is used *without any range check*; otherwise the
token is parsed as a literal (the source passes `line_number + 1` to
`parse_operand`, with `idx` the 0-based index) and checked against [0,99]. -/
def resolve_operand (tbl : List (Str × Nat)) (idx : Nat) (op : Str) :
    Except AsmError Nat :=
  match lookupL tbl op with
  | some a => Except.ok a
  | none =>
    match parse_operand op (idx + 1) with
    | Except.error e => Except.error e
    | Except.ok v =>
      if ¬ (0 ≤ v ∧ v ≤ 99) then Except.error (AsmError.operandRange (idx + 1))
      else Except.ok v.toNat

/-- The word computed for one mnemonic-bearing line by the loop body of
`assemble` (everything up to, but not including, the memory store):
`idx` is the 0-based line index, `instr` the upper-cased mnemonic,
`operand` the raw operand token if any. -/
def encodeLine (tbl : List (Str × Nat)) (idx : Nat) (instr : Str)
    (operand : Option Str) : Except AsmError Int :=
  if instr = sDAT then
    match (match operand with
           | none => Except.ok (0 : Int)
           | some op => parse_operand op (idx + 1)) with
    | Except.error e => Except.error e
    | Except.ok value =>
      if ¬ ((-999 : Int) ≤ value ∧ value ≤ 999) then
        Except.error (AsmError.operandRange (idx + 1))
      else Except.ok value
  else
    match instructionsGet instr with
    | none => Except.error (AsmError.invalidInstruction (idx + 1))
    | some opcode =>
      if instr = sINP ∨ instr = sOUT ∨ instr = sHLT then
        Except.ok (Int.ofNat (decVal opcode))
      else
        match operand with
        | none => Except.error (AsmError.invalidOperand (idx + 1))
        | some op =>
          match resolve_operand tbl idx op with
          | Except.error e => Except.error e
          | Except.ok a =>
            Except.ok (Int.ofNat (decVal (opcode ++ padLeft 2 (natRepr a))))

/-- Python `self.memory[address] = value` on the fixed-length memory list:
`none` models the `IndexError` raised when `address` is out of range
(`address` is a running counter, never negative). -/
def listSet (mem : List (Option Int)) (i : Nat) (v : Int) :
    Option (List (Option Int)) :=
  if i < mem.length then some (mem.set i (some v)) else none

/-- The loop of `assemble` over `enumerate(lines)`: lines without a truthy
instruction are skipped; otherwise the line's word is computed, stored at
the running address (which can raise `IndexError`), a listing entry is
appended and the address advances by one. -/
def assembleGo (tbl : List (Str × Nat)) :
    List Str → Nat → Nat → List (Option Int) → List Str →
    Except AsmFailure (List Str × List (Option Int))
  | [], _, _, mem, mc => Except.ok (mc, mem)
  | line :: rest, idx, addr, mem, mc =>
    let p := parse_line line
    if truthy p.instruction then
      match encodeLine tbl idx (p.instruction.getD []) p.operand with
      | Except.error e => Except.error (AsmFailure.asmError e)
      | Except.ok w =>
        match listSet mem addr w with
        | none => Except.error AsmFailure.indexError
        | some mem' =>
          assembleGo tbl rest (idx + 1) (addr + 1) mem' (mc ++ [listingEntry addr w])
    else assembleGo tbl rest (idx + 1) addr mem mc

/-- Model of `LMCAssembler.assemble` (with the default `memory_size = 100`
used by `main`): runs `first_pass`, then the encoding loop; returns the
machine-code listing and the memory image (from which `generate_c_code`
derives the emitted program). -/
def assemble (lines : List Str) :
    Except AsmFailure (List Str × List (Option Int)) :=
  match first_pass lines with
  | Except.error e => Except.error (AsmFailure.asmError e)
  | Except.ok tbl => assembleGo tbl lines 0 0 (List.replicate 100 none) []

/-! ## Emitted C program (`generate_c_code`) -/

/-- One memory-initializer statement `f"    memory[{i}] = {value};"`. -/
def initStmt (i : Nat) (v : Int) : Str :=
  ("    memory[".data) ++ natRepr i ++ ("] = ".data) ++ pyStrInt v ++ (";".data)

/-- The loop `for i, value in enumerate(self.memory): if value is not None:
append initializer`, with `i` the running index. -/
def memInitGo (i : Nat) : List (Option Int) → List Str
  | [] => []
  | some v :: rest => initStmt i v :: memInitGo (i + 1) rest
  | none :: rest => memInitGo (i + 1) rest

def memInitLines (mem : List (Option Int)) : List Str := memInitGo 0 mem

/-- The fixed lines of `generate_c_code` before the initializers. -/
def cPreamble : List Str :=
  [ "#include <stdio.h>".data,
    "#include <stdlib.h>".data,
    "".data,
    "int main() \x7b".data,
    "    int accumulator = 0;".data,
    "    int memory[100] = \x7b0\x7d;".data,
    "    int input_value;".data,
    "    int pc = 0;".data,
    "    int instruction, operand;".data,
    "    int running = 1;".data,
    "".data,
    "    // Initialize memory with assembled code".data ]

/-- The fixed lines of `generate_c_code` after the initializers (the
fetch-decode-execute loop). -/
def cPostamble : List Str :=
  [ "".data,
    "    // Execute program".data,
    "    while (running) \x7b".data,
    "        if (pc >= 100) \x7b".data,
    "            printf(\"Error: Program counter out of bounds\\n\");".data,
    "            exit(1);".data,
    "        \x7d".data,
    "".data,
    "        instruction = memory[pc] / 100;".data,
    "        operand = memory[pc] % 100;".data,
    "        pc++;".data,
    "".data,
    "        switch (instruction) \x7b".data,
    "            case 0:  // HLT".data,
    "                running = 0;".data,
    "                break;".data,
    "            case 1:  // ADD".data,
    "                accumulator += memory[operand];".data,
    "                accumulator %= 1000;".data,
    "                break;".data,
    "            case 2:  // SUB".data,
    "                accumulator -= memory[operand];".data,
    "               if (accumulator < 0) \x7b".data,
    "                    accumulator = 0;".data,
    "                \x7d".data,
    "                break;".data,
    "            case 3:  // STA".data,
    "                memory[operand] = accumulator;".data,
    "                break;".data,
    "            case 4:  // MUL".data,
    "                accumulator *= memory[operand];".data,
    "                accumulator %= 1000;".data,
    "                break;".data,
    "            case 5:  // LDA".data,
    "                accumulator = memory[operand];".data,
    "                break;".data,
    "            case 6:  // BRA".data,
    "                pc = operand;".data,
    "                break;".data,
    "            case 7:  // BRZ".data,
    "                if (accumulator == 0) \x7b".data,
    "                    pc = operand;".data,
    "                \x7d".data,
    "                break;".data,
    "            case 8:  // BRP".data,
    "                if (accumulator >= 0) \x7b".data,
    "                    pc = operand;".data,
    "                \x7d".data,
    "                break;".data,
    "            case 9:  // INP/OUT".data,
    "                if (operand == 1) \x7b".data,
    "                    printf(\"Enter a value (0-999): \");".data,
    "                    if (scanf(\"%d\", &input_value) != 1) \x7b".data,
    "                       perror(\"scanf error\");".data,
    "                       exit(1);".data,
    "                    \x7d".data,
    "                    if (input_value < 0 || input_value > 999) \x7b".data,
    "                        printf(\"Invalid input. Using 0.\\n\");".data,
    "                        input_value = 0;".data,
    "                    \x7d".data,
    "                    accumulator = input_value;".data,
    "                \x7d else if (operand == 2) \x7b".data,
    "                    printf(\"Output: %d\\n\", accumulator);".data,
    "                \x7d".data,
    "                break;".data,
    "            default:".data,
    "                printf(\"Error: Invalid instruction %d at address %d\\n\", instruction, pc - 1);".data,
    "                exit(1);".data,
    "        \x7d".data,
    "    \x7d".data,
    "".data,
    "    return 0;".data,
    "\x7d".data ]

/-- The line list of `generate_c_code`: preamble, one initializer per set
memory slot, execution loop. -/
def c_code_lines (mem : List (Option Int)) : List Str :=
  cPreamble ++ memInitLines mem ++ cPostamble

/-- Model of `LMCAssembler.generate_c_code`: `"\n".join(c_code)`. -/
def generate_c_code (mem : List (Option Int)) : Str :=
  List.intercalate ('\n' :: []) (c_code_lines mem)

/-! ## Derived notions used by the statements -/

/-- A line "contains a mnemonic": its parsed instruction is truthy.  This is
the single line-classification both passes use (both increment their address
counter exactly on such lines). -/
def hasMnem (line : Str) : Bool := truthy (parse_line line).instruction

/-- The parsed mnemonic of a line (`[]` when there is none). -/
def instrOf (line : Str) : Str := ((parse_line line).instruction).getD []

/-- Number of mnemonic-bearing lines strictly before index `k`. -/
def mnemCountBefore (lines : List Str) (k : Nat) : Nat :=
  ((lines.take k).filter hasMnem).length

/-- The eight operand-taking mnemonics with their opcode digits. -/
def opcodeDigits : List (Str × Nat) :=
  [ (sADD, 1), (sSUB, 2), (sSTA, 3), (sMUL, 4),
    (sLDA, 5), (sBRA, 6), (sBRZ, 7), (sBRP, 8) ]

/-- The word the encoder forms from an opcode digit and a resolved address:
`int(opcode + str(a).zfill(2))`. -/
def encodeWord (d : Nat) (a : Nat) : Int :=
  Int.ofNat (decVal (natRepr d ++ padLeft 2 (natRepr a)))

/-- The set memory slots, in index order, with their values. -/
def setSlotsGo (i : Nat) : List (Option Int) → List (Nat × Int)
  | [] => []
  | some v :: rest => (i, v) :: setSlotsGo (i + 1) rest
  | none :: rest => setSlotsGo (i + 1) rest

def setSlots (mem : List (Option Int)) : List (Nat × Int) := setSlotsGo 0 mem

/-- Recognizer for a memory-initializer statement in the emitted program:
a line beginning `    memory[` (4 spaces).  No line of the fixed preamble
or of the fixed execution loop begins this way. -/
def isMemInit (line : Str) : Bool := beginsWith ("    memory[".data) line

/-- The counterexample program for claim C3: a backward branch to a label
defined on a final label-only line, after exactly 100 mnemonic-bearing
lines; the label resolves to address 100, outside [0,99]. -/
def c3Prog : List Str :=
  ("BRA far".data) :: List.replicate 99 ("HLT".data) ++ [ "far:".data ]

/-- The listing produced for `c3Prog`. -/
def c3Listing : List Str :=
  (List.range 100).map (fun i => listingEntry i (if i = 0 then 6100 else 0))

/-- The counterexample program for claim C9: 101 lines carrying the
unrecognized mnemonic `FOO`. -/
def c9Prog : List Str := List.replicate 101 ("FOO".data)

/-- 101 `HLT` lines: a well-formed program that overflows the 100-slot
memory. -/
def c9Hlt : List Str := List.replicate 101 ("HLT".data)

/-- The loop program of the spec's Scenario B, used as a concrete witness. -/
def c1Lines : List Str :=
  [ "loop: LDA 5".data, "ADD 5".data, "BRA loop".data, "HLT".data ]

def c1Code : List Str :=
  [ "00: 505".data, "01: 105".data, "02: 600".data, "03: 000".data ]

def c1Mem : List (Option Int) :=
  [ some 505, some 105, some 600, some 0 ] ++ List.replicate 96 none

/-- The value of a digit string under base `b` (each character weighted by
its digit value), the reference meaning of a numeral without sign, radix
tag or underscores. -/
def radixVal (b : Nat) (ds : Str) : Nat :=
  ds.foldl (fun a c => a * b + (digitVal? b c).getD 0) 0

/-! ## Auxiliary list lemmas -/

theorem get?_set_self {α : Type} : ∀ (l : List α) (i : Nat) (a : α),
    i < l.length → (l.set i a).get? i = some a
  | [], i, a, h => absurd h (by simp)
  | _ :: t, 0, a, _ => rfl
  | c :: t, i + 1, a, h =>
    by simpa using get?_set_self t i a (by simpa using h)

theorem get?_set_ne {α : Type} : ∀ (l : List α) (i j : Nat) (a : α),
    i ≠ j → (l.set i a).get? j = l.get? j
  | [], _, _, _, _ => rfl
  | c :: t, 0, 0, a, h => absurd rfl h
  | c :: t, 0, j + 1, a, _ => rfl
  | c :: t, i + 1, 0, a, _ => rfl
  | c :: t, i + 1, j + 1, a, h =>
    by simpa using get?_set_ne t i j a (fun hc => h (by simp [hc]))

theorem get?_append_mid {α : Type} : ∀ (xs : List α) (y : α) (t : List α),
    (xs ++ y :: t).get? xs.length = some y
  | [], _, _ => rfl
  | x :: xs, y, t => by simpa using get?_append_mid xs y t

theorem lookupL_append (t1 t2 : List (Str × Nat)) (k : Str) :
    lookupL (t1 ++ t2) k =
      match lookupL t1 k with
      | some v => some v
      | none => lookupL t2 k := by
  induction t1 with
  | nil => rfl
  | cons p t ih =>
    by_cases h : p.1 = k
    · simp [lookupL, h]
    · simp [lookupL, h, ih]

theorem beginsWith_append_self : ∀ (p r : Str), beginsWith p (p ++ r) = true
  | [], _ => rfl
  | c :: p, r => by simp [beginsWith, beginsWith_append_self p r]

/-! ## Decimal strings -/

theorem decValGo_eq (l : Str) : ∀ acc : Nat,
    decValGo l acc = acc * 10 ^ l.length + decValGo l 0 := by
  induction l with
  | nil => intro acc; simp [decValGo]
  | cons c t ih =>
    intro acc
    simp only [decValGo, List.length_cons]
    rw [ih (acc * 10 + (c.toNat - 48)), ih (0 * 10 + (c.toNat - 48))]
    ring

theorem decVal_append (l1 l2 : Str) :
    decVal (l1 ++ l2) = decVal l1 * 10 ^ l2.length + decVal l2 := by
  induction l1 with
  | nil => simp [decVal, decValGo]
  | cons c t ih =>
    unfold decVal at ih ⊢
    simp only [List.cons_append, decValGo, List.append_eq]
    rw [decValGo_eq (t ++ l2), decValGo_eq t, ih, decValGo_eq l2]
    simp [List.length_append]
    ring

theorem digitChar_toNat {d : Nat} (h : d < 10) :
    (Nat.digitChar d).toNat = 48 + d := by
  interval_cases d <;> rfl

theorem natRepr_small {n : Nat} (h : n < 10) : natRepr n = [Nat.digitChar n] := by
  unfold natRepr toDigitsGo
  simp [h]

theorem natRepr_two {n : Nat} (h10 : 10 ≤ n) (h : n < 100) :
    natRepr n = [Nat.digitChar (n / 10), Nat.digitChar (n % 10)] := by
  obtain ⟨m, rfl⟩ : ∃ m, n = m + 1 := ⟨n - 1, by omega⟩
  have h1 : ¬ (m + 1 < 10) := by omega
  have h2 : (m + 1) / 10 < 10 := by omega
  show toDigitsGo (m + 1 + 1) (m + 1) [] = _
  rw [show toDigitsGo (m + 1 + 1) (m + 1) [] =
        toDigitsGo (m + 1) ((m + 1) / 10) [Nat.digitChar ((m + 1) % 10)] by
      simp only [toDigitsGo]; rw [if_neg h1]]
  simp only [toDigitsGo]
  rw [if_pos h2]

theorem decVal_single {d : Nat} (h : d < 10) :
    decVal [Nat.digitChar d] = d := by
  show decValGo [Nat.digitChar d] 0 = d
  simp only [decValGo]
  rw [digitChar_toNat h]
  simp

theorem pad2_spec {a : Nat} (h : a < 100) :
    (padLeft 2 (natRepr a)).length = 2 ∧ decVal (padLeft 2 (natRepr a)) = a := by
  by_cases h10 : a < 10
  · rw [natRepr_small h10]
    constructor
    · rfl
    · show decVal ('0' :: [Nat.digitChar a]) = a
      have h0 : decVal ('0' :: [Nat.digitChar a]) =
          decVal ['0'] * 10 ^ 1 + decVal [Nat.digitChar a] :=
        decVal_append ['0'] [Nat.digitChar a]
      have h1 : decVal ['0'] = 0 := rfl
      rw [h0, h1, decVal_single h10]
      simp
  · rw [natRepr_two (by omega) h]
    constructor
    · rfl
    · show decVal (padLeft 2 [Nat.digitChar (a / 10), Nat.digitChar (a % 10)]) = a
      have hpl : padLeft 2 [Nat.digitChar (a / 10), Nat.digitChar (a % 10)] =
          [Nat.digitChar (a / 10)] ++ [Nat.digitChar (a % 10)] := by
        simp [padLeft]
      rw [hpl, decVal_append, decVal_single (by omega), decVal_single (by omega)]
      simp
      omega

theorem encodeWord_eq {d a : Nat} (hd : d < 10) (ha : a < 100) :
    encodeWord d a = Int.ofNat (d * 100 + a) := by
  unfold encodeWord
  rw [natRepr_small hd, decVal_append, (pad2_spec ha).1, (pad2_spec ha).2,
    decVal_single hd]
  norm_num

/-! ## Line classification -/

theorem fpAddr_eq (i : Option Str) (addr : Nat) :
    fpAddr i addr = if truthy i then addr + 1 else addr := by
  by_cases hd : i = some sDAT
  · subst hd
    have ht : truthy (some sDAT) = true := by decide
    simp [fpAddr, ht]
  · unfold fpAddr
    by_cases ht : truthy i = true
    · simp [ht, hd]
    · simp [ht, hd]

theorem mnemCountBefore_cons (line : Str) (rest : List Str) (k : Nat) :
    mnemCountBefore (line :: rest) (k + 1) =
      (if hasMnem line then 1 else 0) + mnemCountBefore rest k := by
  unfold mnemCountBefore
  rw [List.take_succ_cons, List.filter_cons]
  by_cases h : hasMnem line <;> simp [h, Nat.add_comm]

/-! ## Pass 1: unfolding and invariants -/

theorem fpGo_cons_nolabel (line : Str) (rest : List Str) (idx addr : Nat)
    (tbl : List (Str × Nat)) (hl : truthy (parse_line line).label = false) :
    fpGo (line :: rest) idx addr tbl =
      fpGo rest (idx + 1) (fpAddr (parse_line line).instruction addr) tbl := by
  simp only [fpGo, hl]
  rfl

theorem fpGo_cons_dup (line : Str) (rest : List Str) (idx addr : Nat)
    (tbl : List (Str × Nat)) (hl : truthy (parse_line line).label = true)
    (hd : (lookupL tbl ((parse_line line).label.getD [])).isSome = true) :
    fpGo (line :: rest) idx addr tbl =
      Except.error (AsmError.duplicateLabel (idx + 1)) := by
  simp only [fpGo, hl, hd]
  rfl

theorem fpGo_cons_ins (line : Str) (rest : List Str) (idx addr : Nat)
    (tbl : List (Str × Nat)) (hl : truthy (parse_line line).label = true)
    (hd : (lookupL tbl ((parse_line line).label.getD [])).isSome = false) :
    fpGo (line :: rest) idx addr tbl =
      fpGo rest (idx + 1) (fpAddr (parse_line line).instruction addr)
        (tbl ++ [(((parse_line line).label.getD []), addr)]) := by
  simp only [fpGo, hl, hd]
  rfl

/-- `first_pass` can only fail with `DuplicateLabelError`. -/
theorem fpGo_err : ∀ (rest : List Str) (idx addr : Nat)
    (tbl : List (Str × Nat)) (e : AsmError),
    fpGo rest idx addr tbl = Except.error e →
    ∃ n, e = AsmError.duplicateLabel n := by
  intro rest
  induction rest with
  | nil => intro idx addr tbl e h; exact absurd h (by simp [fpGo])
  | cons line rest ih =>
    intro idx addr tbl e h
    by_cases hl : truthy (parse_line line).label = true
    · by_cases hd : (lookupL tbl ((parse_line line).label.getD [])).isSome = true
      · rw [fpGo_cons_dup line rest idx addr tbl hl hd] at h
        exact ⟨idx + 1, by injection h with h; exact h.symm⟩
      · rw [fpGo_cons_ins line rest idx addr tbl hl (by simpa using hd)] at h
        exact ih _ _ _ _ h
    · rw [fpGo_cons_nolabel line rest idx addr tbl (by simpa using hl)] at h
      exact ih _ _ _ _ h

/-- Success invariant of pass 1: the table grows monotonically (existing
keys keep their first-inserted value), and every truthy label of a line is
mapped to the base address plus the number of mnemonic-bearing lines that
precede the line. -/
theorem fpGo_ok_spec : ∀ (rest : List Str) (idx addr : Nat)
    (tbl0 tblF : List (Str × Nat)),
    fpGo rest idx addr tbl0 = Except.ok tblF →
    ((∀ l v, lookupL tbl0 l = some v → lookupL tblF l = some v) ∧
     (∀ j line', rest.get? j = some line' →
        truthy (parse_line line').label = true →
        lookupL tblF ((parse_line line').label.getD []) =
          some (addr + mnemCountBefore rest j))) := by
  intro rest
  induction rest with
  | nil =>
    intro idx addr tbl0 tblF h
    have : tbl0 = tblF := by injection h
    subst this
    exact ⟨fun l v hv => hv, fun j line' hj => by simp at hj⟩
  | cons line rest ih =>
    intro idx addr tbl0 tblF h
    by_cases hl : truthy (parse_line line).label = true
    · by_cases hd : (lookupL tbl0 ((parse_line line).label.getD [])).isSome = true
      · rw [fpGo_cons_dup line rest idx addr tbl0 hl hd] at h
        exact absurd h (by simp)
      · rw [fpGo_cons_ins line rest idx addr tbl0 hl (by simpa using hd)] at h
        obtain ⟨mono, ihj⟩ := ih _ _ _ _ h
        have hnone : lookupL tbl0 ((parse_line line).label.getD []) = none := by
          cases hx : lookupL tbl0 ((parse_line line).label.getD [])
          · rfl
          · exact absurd (by simp [hx]) hd
        refine ⟨?_, ?_⟩
        · intro l v hv
          apply mono
          rw [lookupL_append]
          simp [hv]
        · intro j line' hj hjl
          match j with
          | 0 =>
            have hline : line' = line := by injection hj with h; exact h.symm
            subst hline
            have hmem : lookupL (tbl0 ++ [(((parse_line line').label.getD []), addr)])
                ((parse_line line').label.getD []) = some addr := by
              rw [lookupL_append, hnone]
              simp [lookupL]
            have := mono _ _ hmem
            simpa [mnemCountBefore] using this
          | j + 1 =>
            have hj' : rest.get? j = some line' := hj
            have hstep := ihj j line' hj' hjl
            rw [fpAddr_eq] at hstep
            rw [mnemCountBefore_cons]
            have hm : truthy (parse_line line).instruction = hasMnem line := rfl
            rw [hm] at hstep
            cases hmn : hasMnem line
            · rw [hmn, if_neg (by simp)] at hstep
              simpa using hstep
            · rw [hmn, if_pos rfl] at hstep
              rw [show addr + ((if true = true then 1 else 0) + mnemCountBefore rest j) =
                addr + 1 + mnemCountBefore rest j by simp; omega]
              exact hstep
    · rw [fpGo_cons_nolabel line rest idx addr tbl0 (by simpa using hl)] at h
      obtain ⟨mono, ihj⟩ := ih _ _ _ _ h
      refine ⟨mono, ?_⟩
      intro j line' hj hjl
      match j with
      | 0 =>
        have hline : line' = line := by injection hj with h; exact h.symm
        subst hline
        exact absurd hjl (by simp [hl])
      | j + 1 =>
        have hstep := ihj j line' hj hjl
        rw [fpAddr_eq] at hstep
        rw [mnemCountBefore_cons]
        have hm : truthy (parse_line line).instruction = hasMnem line := rfl
        rw [hm] at hstep
        cases hmn : hasMnem line
        · rw [hmn, if_neg (by simp)] at hstep
          simpa using hstep
        · rw [hmn, if_pos rfl] at hstep
          rw [show addr + ((if true = true then 1 else 0) + mnemCountBefore rest j) =
            addr + 1 + mnemCountBefore rest j by simp; omega]
          exact hstep

/-! ## Pass 2: unfolding and invariants -/

theorem assembleGo_cons_skip (tbl : List (Str × Nat)) (line : Str)
    (rest : List Str) (idx addr : Nat) (mem : List (Option Int)) (mc : List Str)
    (hm : truthy (parse_line line).instruction = false) :
    assembleGo tbl (line :: rest) idx addr mem mc =
      assembleGo tbl rest (idx + 1) addr mem mc := by
  simp only [assembleGo, hm]
  rfl

theorem assembleGo_cons_err (tbl : List (Str × Nat)) (line : Str)
    (rest : List Str) (idx addr : Nat) (mem : List (Option Int)) (mc : List Str)
    (e : AsmError) (hm : truthy (parse_line line).instruction = true)
    (he : encodeLine tbl idx ((parse_line line).instruction.getD [])
      (parse_line line).operand = Except.error e) :
    assembleGo tbl (line :: rest) idx addr mem mc =
      Except.error (AsmFailure.asmError e) := by
  simp only [assembleGo, hm, he]
  rfl

theorem assembleGo_cons_oob (tbl : List (Str × Nat)) (line : Str)
    (rest : List Str) (idx addr : Nat) (mem : List (Option Int)) (mc : List Str)
    (w : Int) (hm : truthy (parse_line line).instruction = true)
    (he : encodeLine tbl idx ((parse_line line).instruction.getD [])
      (parse_line line).operand = Except.ok w)
    (hs : ¬ addr < mem.length) :
    assembleGo tbl (line :: rest) idx addr mem mc =
      Except.error AsmFailure.indexError := by
  simp only [assembleGo, hm, he, listSet, hs]
  rfl

theorem assembleGo_cons_store (tbl : List (Str × Nat)) (line : Str)
    (rest : List Str) (idx addr : Nat) (mem : List (Option Int)) (mc : List Str)
    (w : Int) (hm : truthy (parse_line line).instruction = true)
    (he : encodeLine tbl idx ((parse_line line).instruction.getD [])
      (parse_line line).operand = Except.ok w)
    (hs : addr < mem.length) :
    assembleGo tbl (line :: rest) idx addr mem mc =
      assembleGo tbl rest (idx + 1) (addr + 1) (mem.set addr (some w))
        (mc ++ [listingEntry addr w]) := by
  simp only [assembleGo, hm, he, listSet, hs]
  rfl

/-- Success invariant of pass 2: memory length is preserved, slots below the
base address are untouched, the listing grows by appending, and the word of
the `j`-th line (when that line bears a mnemonic) is the one `encodeLine`
computes, stored at base address plus the count of preceding mnemonic lines,
with the matching listing entry at the corresponding listing position. -/
theorem asmGo_ok_spec : ∀ (rest : List Str) (tbl : List (Str × Nat))
    (idx addr : Nat) (mem : List (Option Int)) (mc mcF : List Str)
    (memF : List (Option Int)),
    assembleGo tbl rest idx addr mem mc = Except.ok (mcF, memF) →
    (memF.length = mem.length ∧
     (∀ i, i < addr → memF.get? i = mem.get? i) ∧
     (∃ t, mcF = mc ++ t) ∧
     (∀ j line', rest.get? j = some line' → hasMnem line' = true →
       ∃ w, encodeLine tbl (idx + j) (instrOf line') (parse_line line').operand =
            Except.ok w ∧
         memF.get? (addr + mnemCountBefore rest j) = some (some w) ∧
         mcF.get? (mc.length + mnemCountBefore rest j) =
           some (listingEntry (addr + mnemCountBefore rest j) w))) := by
  intro rest
  induction rest with
  | nil =>
    intro tbl idx addr mem mc mcF memF h
    have h' : (mc, mem) = (mcF, memF) := by injection h
    obtain ⟨h1, h2⟩ := Prod.mk.injEq .. ▸ h'
    subst h1; subst h2
    exact ⟨rfl, fun i _ => rfl, ⟨[], by simp⟩, fun j line' hj => by simp at hj⟩
  | cons line rest ih =>
    intro tbl idx addr mem mc mcF memF h
    by_cases hm : truthy (parse_line line).instruction = true
    · cases he : encodeLine tbl idx ((parse_line line).instruction.getD [])
        (parse_line line).operand with
      | error e =>
        rw [assembleGo_cons_err tbl line rest idx addr mem mc e hm he] at h
        exact absurd h (by simp)
      | ok w =>
        by_cases hs : addr < mem.length
        · rw [assembleGo_cons_store tbl line rest idx addr mem mc w hm he hs] at h
          obtain ⟨hlen, hbelow, ⟨t, ht⟩, hj⟩ := ih _ _ _ _ _ _ _ h
          have hlen' : memF.length = mem.length := by
            rw [hlen, List.length_set]
          refine ⟨hlen', ?_, ?_, ?_⟩
          · intro i hi
            rw [hbelow i (by omega), get?_set_ne mem addr i (some w) (by omega)]
          · exact ⟨listingEntry addr w :: t, by rw [ht, List.append_assoc]; rfl⟩
          · intro j line' hjq hmn
            match j with
            | 0 =>
              have hline : line' = line := by injection hjq with h'; exact h'.symm
              subst hline
              refine ⟨w, by simpa using he, ?_, ?_⟩
              · show memF.get? (addr + mnemCountBefore (line' :: rest) 0) = some (some w)
                have h0 : mnemCountBefore (line' :: rest) 0 = 0 := rfl
                rw [h0, Nat.add_zero, hbelow addr (by omega),
                  get?_set_self mem addr (some w) hs]
              · show mcF.get? (mc.length + mnemCountBefore (line' :: rest) 0) =
                  some (listingEntry (addr + mnemCountBefore (line' :: rest) 0) w)
                have h0 : mnemCountBefore (line' :: rest) 0 = 0 := rfl
                rw [h0, Nat.add_zero, Nat.add_zero, ht, List.append_assoc]
                exact get?_append_mid mc (listingEntry addr w) t
            | j + 1 =>
              obtain ⟨w', hw1, hw2, hw3⟩ := hj j line' hjq hmn
              have hcnt : mnemCountBefore (line :: rest) (j + 1) =
                  1 + mnemCountBefore rest j := by
                rw [mnemCountBefore_cons]
                have : hasMnem line = true := hm
                rw [this]
                simp
              refine ⟨w', ?_, ?_, ?_⟩
              · rw [show idx + (j + 1) = idx + 1 + j by omega]
                exact hw1
              · rw [hcnt, show addr + (1 + mnemCountBefore rest j) =
                  addr + 1 + mnemCountBefore rest j by omega]
                exact hw2
              · rw [hcnt, show mc.length + (1 + mnemCountBefore rest j) =
                  (mc ++ [listingEntry addr w]).length + mnemCountBefore rest j by
                    simp; omega,
                  show addr + (1 + mnemCountBefore rest j) =
                  addr + 1 + mnemCountBefore rest j by omega]
                exact hw3
        · rw [assembleGo_cons_oob tbl line rest idx addr mem mc w hm he hs] at h
          exact absurd h (by simp)
    · rw [assembleGo_cons_skip tbl line rest idx addr mem mc (by simpa using hm)] at h
      obtain ⟨hlen, hbelow, hpre, hj⟩ := ih _ _ _ _ _ _ _ h
      refine ⟨hlen, hbelow, hpre, ?_⟩
      intro j line' hjq hmn
      match j with
      | 0 =>
        have hline : line' = line := by injection hjq with h'; exact h'.symm
        subst hline
        exact absurd hmn (by simpa [hasMnem] using hm)
      | j + 1 =>
        obtain ⟨w', hw1, hw2, hw3⟩ := hj j line' hjq hmn
        have hcnt : mnemCountBefore (line :: rest) (j + 1) =
            mnemCountBefore rest j := by
          rw [mnemCountBefore_cons]
          have : hasMnem line = false := by simpa [hasMnem] using hm
          rw [this]
          simp
        refine ⟨w', ?_, ?_, ?_⟩
        · rw [show idx + (j + 1) = idx + 1 + j by omega]
          exact hw1
        · rw [hcnt]
          exact hw2
        · rw [hcnt]
          exact hw3

/-- If pass 2 succeeds, the base address plus the number of remaining
mnemonic-bearing lines never exceeds the memory size. -/
theorem asmGo_ok_le : ∀ (rest : List Str) (tbl : List (Str × Nat))
    (idx addr : Nat) (mem : List (Option Int)) (mc : List Str)
    (res : List Str × List (Option Int)),
    addr ≤ mem.length →
    assembleGo tbl rest idx addr mem mc = Except.ok res →
    addr + (rest.filter hasMnem).length ≤ mem.length := by
  intro rest
  induction rest with
  | nil =>
    intro tbl idx addr mem mc res hle _
    simpa using hle
  | cons line rest ih =>
    intro tbl idx addr mem mc res hle h
    by_cases hm : truthy (parse_line line).instruction = true
    · cases he : encodeLine tbl idx ((parse_line line).instruction.getD [])
        (parse_line line).operand with
      | error e =>
        rw [assembleGo_cons_err tbl line rest idx addr mem mc e hm he] at h
        exact absurd h (by simp)
      | ok w =>
        by_cases hs : addr < mem.length
        · rw [assembleGo_cons_store tbl line rest idx addr mem mc w hm he hs] at h
          have := ih tbl (idx + 1) (addr + 1) (mem.set addr (some w))
            (mc ++ [listingEntry addr w]) res (by rw [List.length_set]; omega) h
          rw [List.length_set] at this
          have hf : (List.filter hasMnem (line :: rest)).length =
              (List.filter hasMnem rest).length + 1 := by
            rw [List.filter_cons]
            have : hasMnem line = true := hm
            rw [this]
            simp
          omega
        · rw [assembleGo_cons_oob tbl line rest idx addr mem mc w hm he hs] at h
          exact absurd h (by simp)
    · rw [assembleGo_cons_skip tbl line rest idx addr mem mc (by simpa using hm)] at h
      have := ih tbl (idx + 1) addr mem mc res hle h
      have hf : (List.filter hasMnem (line :: rest)).length =
          (List.filter hasMnem rest).length := by
        rw [List.filter_cons]
        have : hasMnem line = false := by simpa [hasMnem] using hm
        rw [this]
        simp
      omega

/-! ## Emitted program: initializer lines -/

theorem isMemInit_initStmt (i : Nat) (v : Int) : isMemInit (initStmt i v) = true := by
  unfold isMemInit initStmt
  rw [show ("    memory[".data) ++ natRepr i ++ ("] = ".data) ++ pyStrInt v ++
      (";".data) = ("    memory[".data) ++
      (natRepr i ++ (("] = ".data) ++ (pyStrInt v ++ (";".data)))) by
    simp [List.append_assoc]]
  exact beginsWith_append_self _ _

theorem memInitGo_eq_map : ∀ (mem : List (Option Int)) (i : Nat),
    memInitGo i mem = (setSlotsGo i mem).map (fun p => initStmt p.1 p.2)
  | [], _ => rfl
  | some v :: rest, i => by
    simp only [memInitGo, setSlotsGo, List.map_cons]
    rw [memInitGo_eq_map rest (i + 1)]
  | none :: rest, i => by
    simp only [memInitGo, setSlotsGo]
    exact memInitGo_eq_map rest (i + 1)

theorem filter_memInitGo (mem : List (Option Int)) (i : Nat) :
    (memInitGo i mem).filter isMemInit = memInitGo i mem := by
  induction mem generalizing i with
  | nil => rfl
  | cons o rest ih =>
    cases o with
    | none => simp only [memInitGo]; exact ih (i + 1)
    | some v =>
      simp only [memInitGo, List.filter_cons, isMemInit_initStmt]
      rw [ih (i + 1)]
      simp

theorem filter_cPreamble : cPreamble.filter isMemInit = [] := by decide

theorem filter_cPostamble : cPostamble.filter isMemInit = [] := by decide

theorem setSlotsGo_ge : ∀ (mem : List (Option Int)) (i : Nat)
    (p : Nat × Int), p ∈ setSlotsGo i mem → i ≤ p.1
  | [], _, _, hp => absurd hp (by simp [setSlotsGo])
  | some v :: rest, i, p, hp => by
    simp only [setSlotsGo, List.mem_cons] at hp
    cases hp with
    | inl h => subst h; exact Nat.le_refl i
    | inr h => exact Nat.le_of_succ_le (setSlotsGo_ge rest (i + 1) p h)
  | none :: rest, i, p, hp => by
    simp only [setSlotsGo] at hp
    exact Nat.le_of_succ_le (setSlotsGo_ge rest (i + 1) p hp)

theorem setSlotsGo_pairwise : ∀ (mem : List (Option Int)) (i : Nat),
    ((setSlotsGo i mem).map Prod.fst).Pairwise (· < ·)
  | [], _ => by simp [setSlotsGo]
  | some v :: rest, i => by
    simp only [setSlotsGo, List.map_cons, List.pairwise_cons]
    refine ⟨?_, setSlotsGo_pairwise rest (i + 1)⟩
    intro b hb
    obtain ⟨p, hp, rfl⟩ := List.mem_map.mp hb
    exact Nat.lt_of_succ_le (setSlotsGo_ge rest (i + 1) p hp)
  | none :: rest, i => setSlotsGo_pairwise rest (i + 1)

theorem setSlotsGo_mem_iff : ∀ (mem : List (Option Int)) (i j : Nat) (v : Int),
    ((j, v) ∈ setSlotsGo i mem ↔ ∃ k, j = i + k ∧ mem.get? k = some (some v))
  | [], i, j, v => by simp [setSlotsGo]
  | some v' :: rest, i, j, v => by
    simp only [setSlotsGo, List.mem_cons, Prod.mk.injEq]
    rw [setSlotsGo_mem_iff rest (i + 1) j v]
    constructor
    · rintro (⟨rfl, rfl⟩ | ⟨k, rfl, hk⟩)
      · exact ⟨0, by simp⟩
      · exact ⟨k + 1, by omega, by simpa using hk⟩
    · rintro ⟨k, rfl, hk⟩
      match k with
      | 0 =>
        left
        simp at hk
        exact ⟨by omega, hk.symm⟩
      | k + 1 =>
        right
        exact ⟨k, by omega, by simpa using hk⟩
  | none :: rest, i, j, v => by
    simp only [setSlotsGo]
    rw [setSlotsGo_mem_iff rest (i + 1) j v]
    constructor
    · rintro ⟨k, rfl, hk⟩
      exact ⟨k + 1, by omega, by simpa using hk⟩
    · rintro ⟨k, rfl, hk⟩
      match k with
      | 0 => simp at hk
      | k + 1 => exact ⟨k, by omega, by simpa using hk⟩

/-! ## Line-parser lemmas for a schematic labelled line -/

theorem stripComment_id : ∀ (l : Str), (∀ c ∈ l, c ≠ '/') → stripComment l = l
  | [], _ => rfl
  | [c], _ => rfl
  | c :: d :: rest, h => by
    unfold stripComment
    rw [if_neg (fun hc => h c (by simp) hc.1)]
    rw [stripComment_id (d :: rest) (fun x hx => h x (by simp at hx ⊢; tauto))]

theorem pyStrip_cons_concat (a : Char) (m : Str) (e : Char)
    (ha : pySpace a = false) (he : pySpace e = false) :
    pyStrip (a :: (m ++ [e])) = a :: (m ++ [e]) := by
  unfold pyStrip
  rw [List.dropWhile_cons, if_neg (by simp [ha])]
  rw [show (a :: (m ++ [e])).reverse = e :: (m.reverse ++ [a]) by simp]
  rw [List.dropWhile_cons, if_neg (by simp [he])]
  rw [show (e :: (m.reverse ++ [a])).reverse = a :: (m ++ [e]) by simp]

theorem splitWsGo_nonspace : ∀ (t : Str), (∀ c ∈ t, pySpace c = false) →
    ∀ (r acc : Str), splitWsGo (t ++ r) acc = splitWsGo r (t.reverse ++ acc)
  | [], _, r, acc => by simp
  | c :: t, h, r, acc => by
    have hc : pySpace c = false := h c (by simp)
    show splitWsGo (c :: (t ++ r)) acc = _
    rw [show splitWsGo (c :: (t ++ r)) acc = splitWsGo (t ++ r) (c :: acc) by
      simp only [splitWsGo, hc]; rfl]
    rw [splitWsGo_nonspace t (fun x hx => h x (by simp [hx])) r (c :: acc)]
    simp

theorem splitWsGo_space (r acc : Str) (hacc : acc ≠ []) :
    splitWsGo (' ' :: r) acc = acc.reverse :: splitWsGo r [] := by
  have hsp : pySpace ' ' = true := rfl
  simp only [splitWsGo, hsp, if_true]
  rw [if_neg hacc]

theorem splitWs_three (t1 t2 t3 : Str) (h1 : t1 ≠ []) (h2 : t2 ≠ []) (h3 : t3 ≠ [])
    (hc1 : ∀ c ∈ t1, pySpace c = false) (hc2 : ∀ c ∈ t2, pySpace c = false)
    (hc3 : ∀ c ∈ t3, pySpace c = false) :
    splitWs (t1 ++ ' ' :: (t2 ++ ' ' :: t3)) = [t1, t2, t3] := by
  unfold splitWs
  rw [splitWsGo_nonspace t1 hc1]
  rw [List.append_nil]
  rw [splitWsGo_space _ _ (by simpa using h1)]
  rw [List.reverse_reverse]
  rw [splitWsGo_nonspace t2 hc2]
  rw [List.append_nil]
  rw [splitWsGo_space _ _ (by simpa using h2)]
  rw [List.reverse_reverse]
  rw [show t3 = t3 ++ [] by simp]
  rw [splitWsGo_nonspace t3 hc3]
  simp only [splitWsGo]
  rw [if_neg (by simpa using h3)]
  simp

/-- On a schematic line `lab: mn op` (single spaces, tokens free of
whitespace and of `/`), the parser returns the label and the operand
verbatim and upper-cases only the mnemonic. -/
theorem parse_line_schematic (lab mn op : Str)
    (hl : lab ≠ []) (hm : mn ≠ []) (ho : op ≠ [])
    (hcl : ∀ c ∈ lab, pySpace c = false ∧ c ≠ '/')
    (hcm : ∀ c ∈ mn, pySpace c = false ∧ c ≠ '/')
    (hco : ∀ c ∈ op, pySpace c = false ∧ c ≠ '/') :
    parse_line (lab ++ ':' :: ' ' :: (mn ++ ' ' :: op)) =
      ⟨some lab, some (pyUpper mn), some op⟩ := by
  have hmem : ∀ c ∈ lab ++ ':' :: ' ' :: (mn ++ ' ' :: op),
      c = ':' ∨ c = ' ' ∨ c ∈ lab ∨ c ∈ mn ∨ c ∈ op := by
    intro c hc
    simp only [List.mem_append, List.mem_cons] at hc
    tauto
  have hsc : stripComment (lab ++ ':' :: ' ' :: (mn ++ ' ' :: op)) =
      lab ++ ':' :: ' ' :: (mn ++ ' ' :: op) := by
    apply stripComment_id
    intro c hc
    rcases hmem c hc with rfl | rfl | h | h | h
    · decide
    · decide
    · exact (hcl c h).2
    · exact (hcm c h).2
    · exact (hco c h).2
  have hps : pyStrip (lab ++ ':' :: ' ' :: (mn ++ ' ' :: op)) =
      lab ++ ':' :: ' ' :: (mn ++ ' ' :: op) := by
    obtain ⟨a, lab', hlab⟩ : ∃ a lab', lab = a :: lab' := by
      cases lab with
      | nil => exact absurd rfl hl
      | cons a t => exact ⟨a, t, rfl⟩
    obtain ⟨op', e, hop⟩ : ∃ op' e, op = op' ++ [e] := by
      rcases List.eq_nil_or_concat op with h | ⟨op', e, h⟩
      · exact absurd h ho
      · exact ⟨op', e, by simpa using h⟩
    subst hlab
    subst hop
    rw [show (a :: lab') ++ ':' :: ' ' :: (mn ++ ' ' :: (op' ++ [e])) =
        a :: ((lab' ++ ':' :: ' ' :: (mn ++ ' ' :: op')) ++ [e]) by simp]
    exact pyStrip_cons_concat a _ e (hcl a (by simp)).1 (hco e (by simp)).1
  have hsw : splitWs (lab ++ ':' :: ' ' :: (mn ++ ' ' :: op)) =
      [lab ++ [':'], mn, op] := by
    rw [show lab ++ ':' :: ' ' :: (mn ++ ' ' :: op) =
        (lab ++ [':']) ++ ' ' :: (mn ++ ' ' :: op) by simp]
    apply splitWs_three
    · simp
    · exact hm
    · exact ho
    · intro c hc
      rcases List.mem_append.mp hc with h | h
      · exact (hcl c h).1
      · have : c = ':' := by simpa using h
        subst this
        decide
    · intro c hc
      exact (hcm c hc).1
    · intro c hc
      exact (hco c hc).1
  have hlast : (lab ++ [':']).getLast? = some ':' := by
    simp [List.getLast?_concat]
  unfold parse_line
  simp only [hsc, hps, hsw]
  simp [hlast, List.dropLast_concat]

/-! ## Claims -/

/-- Claim C1: for every source whose translation succeeds, the address
assigned by pass 2 to a mnemonic-bearing line (the memory slot its word is
stored in, and the position and printed address of its listing entry)
equals the count of mnemonic-bearing lines strictly before it, and every
label recorded in pass 1 maps to exactly that address of its defining line,
whether referenced before or after its definition. -/
theorem c1_addresses_and_labels (lines : List Str) (code : List Str)
    (mem : List (Option Int))
    (h : assemble lines = Except.ok (code, mem)) :
    ∃ tbl, first_pass lines = Except.ok tbl ∧
      (∀ k line', lines.get? k = some line' →
        truthy (parse_line line').label = true →
        lookupL tbl ((parse_line line').label.getD []) =
          some (mnemCountBefore lines k)) ∧
      (∀ k line', lines.get? k = some line' → hasMnem line' = true →
        ∃ w, encodeLine tbl k (instrOf line') (parse_line line').operand =
             Except.ok w ∧
          mem.get? (mnemCountBefore lines k) = some (some w) ∧
          code.get? (mnemCountBefore lines k) =
            some (listingEntry (mnemCountBefore lines k) w)) := by
  unfold assemble at h
  cases hfp : first_pass lines with
  | error e =>
    rw [hfp] at h
    exact absurd h (by simp)
  | ok tbl =>
    rw [hfp] at h
    refine ⟨tbl, rfl, ?_, ?_⟩
    · have hspec := (fpGo_ok_spec lines 0 0 [] tbl
        (by simpa [first_pass] using hfp)).2
      intro k line' hk hl
      simpa using hspec k line' hk hl
    · have hspec := (asmGo_ok_spec lines tbl 0 0 (List.replicate 100 none)
        [] code mem h).2.2.2
      intro k line' hk hmn
      obtain ⟨w, h1, h2, h3⟩ := hspec k line' hk hmn
      exact ⟨w, by simpa using h1, by simpa using h2, by simpa using h3⟩

/-- Witness for C1 on the loop program of the spec's Scenario B: the label
`loop` (referenced after its line) resolves to address 0, and the `BRA`
line, third mnemonic line, has its word 600 stored at address 2. -/
theorem c1_witness :
    ∃ tbl, first_pass c1Lines = Except.ok tbl ∧
      lookupL tbl ("loop".data) = some 0 ∧
      c1Mem.get? 2 = some (some 600) := by
  obtain ⟨tbl, h1, h2, h3⟩ :=
    c1_addresses_and_labels c1Lines c1Code c1Mem (by decide)
  refine ⟨tbl, h1, ?_, ?_⟩
  · exact h2 0 ("loop: LDA 5".data) rfl (by decide)
  · obtain ⟨w, hw1, hw2, hw3⟩ := h3 2 ("BRA loop".data) rfl (by decide)
    have : w = 600 := by
      have htbl : tbl = [("loop".data, 0)] := by
        have hfp : first_pass c1Lines = Except.ok [("loop".data, 0)] := by decide
        rw [hfp] at h1
        injection h1 with h1
        exact h1.symm
      rw [htbl] at hw1
      have henc : encodeLine [("loop".data, 0)] 2 (instrOf ("BRA loop".data))
          (parse_line ("BRA loop".data)).operand = Except.ok 600 := by decide
      rw [henc] at hw1
      injection hw1 with hw1
      exact hw1.symm
    subst this
    exact hw2

/-! ## encodeLine and resolve_operand helper lemmas -/

theorem resolve_operand_label (tbl : List (Str × Nat)) (idx : Nat) (op : Str)
    (a : Nat) (h : lookupL tbl op = some a) :
    resolve_operand tbl idx op = Except.ok a := by
  simp only [resolve_operand, h]

theorem resolve_operand_lit_err (tbl : List (Str × Nat)) (idx : Nat) (op : Str)
    (e : AsmError) (h : lookupL tbl op = none)
    (hp : parse_operand op (idx + 1) = Except.error e) :
    resolve_operand tbl idx op = Except.error e := by
  simp only [resolve_operand, h, hp]

theorem resolve_operand_lit_ok (tbl : List (Str × Nat)) (idx : Nat) (op : Str)
    (v : Int) (h : lookupL tbl op = none)
    (hp : parse_operand op (idx + 1) = Except.ok v) :
    resolve_operand tbl idx op =
      if ¬ (0 ≤ v ∧ v ≤ 99) then Except.error (AsmError.operandRange (idx + 1))
      else Except.ok v.toNat := by
  simp only [resolve_operand, h, hp]

theorem encodeLine_op (tbl : List (Str × Nat)) (idx : Nat) (instr opc op : Str)
    (hne : instr ≠ sDAT) (hget : instructionsGet instr = some opc)
    (hio : ¬ (instr = sINP ∨ instr = sOUT ∨ instr = sHLT)) :
    encodeLine tbl idx instr (some op) =
      (match resolve_operand tbl idx op with
       | Except.error e => Except.error e
       | Except.ok a => Except.ok (Int.ofNat (decVal (opc ++ padLeft 2 (natRepr a))))) := by
  simp only [encodeLine, hget, if_neg hne, if_neg hio]

theorem encodeLine_op_none (tbl : List (Str × Nat)) (idx : Nat) (instr opc : Str)
    (hne : instr ≠ sDAT) (hget : instructionsGet instr = some opc)
    (hio : ¬ (instr = sINP ∨ instr = sOUT ∨ instr = sHLT)) :
    encodeLine tbl idx instr none =
      Except.error (AsmError.invalidOperand (idx + 1)) := by
  simp only [encodeLine, hget, if_neg hne, if_neg hio]

theorem encodeLine_io (tbl : List (Str × Nat)) (idx : Nat) (instr opc : Str)
    (hne : instr ≠ sDAT) (hget : instructionsGet instr = some opc)
    (hio : instr = sINP ∨ instr = sOUT ∨ instr = sHLT) (operand : Option Str) :
    encodeLine tbl idx instr operand = Except.ok (Int.ofNat (decVal opc)) := by
  simp only [encodeLine, hget, if_neg hne, if_pos hio]

/-! ## Claim C2 -/

/-- Claim C2: for a line with one of the eight operand-taking mnemonics
whose resolved operand address `a` lies in [0,99], the encoded word is
`opcode_digit * 100 + a`, with digits ADD=1, SUB=2, STA=3, MUL=4, LDA=5,
BRA=6, BRZ=7, BRP=8. -/
theorem c2_opcode_encoding (tbl : List (Str × Nat)) (idx : Nat)
    (instr : Str) (d : Nat) (op : Str) (a : Nat)
    (hmem : (instr, d) ∈ opcodeDigits)
    (hres : resolve_operand tbl idx op = Except.ok a) (ha : a ≤ 99) :
    encodeLine tbl idx instr (some op) = Except.ok (Int.ofNat (d * 100 + a)) := by
  have ha' : a < 100 := by omega
  simp only [opcodeDigits, List.mem_cons, List.not_mem_nil, or_false] at hmem
  rcases hmem with h | h | h | h | h | h | h | h <;>
    (injection h with h1 h2; subst h1; subst h2)
  · rw [encodeLine_op tbl idx sADD ("1".data) op (by decide) (by decide) (by decide),
      hres]
    show Except.ok (encodeWord 1 a) = _
    rw [encodeWord_eq (by omega) ha']
  · rw [encodeLine_op tbl idx sSUB ("2".data) op (by decide) (by decide) (by decide),
      hres]
    show Except.ok (encodeWord 2 a) = _
    rw [encodeWord_eq (by omega) ha']
  · rw [encodeLine_op tbl idx sSTA ("3".data) op (by decide) (by decide) (by decide),
      hres]
    show Except.ok (encodeWord 3 a) = _
    rw [encodeWord_eq (by omega) ha']
  · rw [encodeLine_op tbl idx sMUL ("4".data) op (by decide) (by decide) (by decide),
      hres]
    show Except.ok (encodeWord 4 a) = _
    rw [encodeWord_eq (by omega) ha']
  · rw [encodeLine_op tbl idx sLDA ("5".data) op (by decide) (by decide) (by decide),
      hres]
    show Except.ok (encodeWord 5 a) = _
    rw [encodeWord_eq (by omega) ha']
  · rw [encodeLine_op tbl idx sBRA ("6".data) op (by decide) (by decide) (by decide),
      hres]
    show Except.ok (encodeWord 6 a) = _
    rw [encodeWord_eq (by omega) ha']
  · rw [encodeLine_op tbl idx sBRZ ("7".data) op (by decide) (by decide) (by decide),
      hres]
    show Except.ok (encodeWord 7 a) = _
    rw [encodeWord_eq (by omega) ha']
  · rw [encodeLine_op tbl idx sBRP ("8".data) op (by decide) (by decide) (by decide),
      hres]
    show Except.ok (encodeWord 8 a) = _
    rw [encodeWord_eq (by omega) ha']

/-- Witness for C2: `ADD` with literal operand 7 encodes to 107, and `BRA`
with a label resolving to address 42 encodes to 642. -/
theorem c2_witness :
    encodeLine [] 0 ("ADD".data) (some ("7".data)) = Except.ok 107 ∧
    encodeLine [ ("x".data, 42) ] 3 ("BRA".data) (some ("x".data)) =
      Except.ok 642 := by
  constructor
  · exact (c2_opcode_encoding [] 0 ("ADD".data) 1 ("7".data) 7 (by decide)
      (by decide) (by decide)).trans (by decide)
  · exact (c2_opcode_encoding [ ("x".data, 42) ] 3 ("BRA".data) 6 ("x".data) 42
      (by decide) (by decide) (by decide)).trans (by decide)

/-! ## Claim C5 -/

/-- Claim C5: `INP`, `OUT` and `HLT` lines encode to 901, 902 and 0
respectively, for every label table, line index and operand token,
including when an operand token is present (it is ignored, no error). -/
theorem c5_io_hlt (tbl : List (Str × Nat)) (idx : Nat) (operand : Option Str) :
    encodeLine tbl idx sINP operand = Except.ok 901 ∧
    encodeLine tbl idx sOUT operand = Except.ok 902 ∧
    encodeLine tbl idx sHLT operand = Except.ok 0 := by
  refine ⟨?_, ?_, ?_⟩
  · exact encodeLine_io tbl idx sINP ("901".data) (by decide) (by decide)
      (by simp [sINP]) operand
  · exact encodeLine_io tbl idx sOUT ("902".data) (by decide) (by decide)
      (by simp [sOUT]) operand
  · exact encodeLine_io tbl idx sHLT ("000".data) (by decide) (by decide)
      (by simp [sHLT]) operand

/-! ## Claim C6 -/

/-- Claim C6: a `DAT` line with no operand stores 0; with an operand token
the parsed value is stored when it lies in [-999,999] and otherwise
`OperandRangeError` (with the line's 1-based number) is raised; a
successfully encoded word is stored at the line's current address. -/
theorem c6_dat (tbl : List (Str × Nat)) (idx : Nat) :
    encodeLine tbl idx sDAT none = Except.ok 0 ∧
    (∀ s v, parse_operand s (idx + 1) = Except.ok v →
      (((-999 : Int) ≤ v ∧ v ≤ 999) →
        encodeLine tbl idx sDAT (some s) = Except.ok v) ∧
      (¬ ((-999 : Int) ≤ v ∧ v ≤ 999) →
        encodeLine tbl idx sDAT (some s) =
          Except.error (AsmError.operandRange (idx + 1)))) ∧
    (∀ rest line addr mem mc w, hasMnem line = true →
      encodeLine tbl idx (instrOf line) (parse_line line).operand =
        Except.ok w →
      addr < mem.length →
      assembleGo tbl (line :: rest) idx addr mem mc =
        assembleGo tbl rest (idx + 1) (addr + 1) (mem.set addr (some w))
          (mc ++ [listingEntry addr w])) := by
  refine ⟨rfl, ?_, ?_⟩
  · intro s v hp
    have hbranch : encodeLine tbl idx sDAT (some s) =
        (match parse_operand s (idx + 1) with
         | Except.error e => Except.error e
         | Except.ok value =>
           if ¬ ((-999 : Int) ≤ value ∧ value ≤ 999) then
             Except.error (AsmError.operandRange (idx + 1))
           else Except.ok value) := rfl
    constructor
    · intro hr
      rw [hbranch, hp]
      show (if ¬ ((-999 : Int) ≤ v ∧ v ≤ 999) then
          Except.error (AsmError.operandRange (idx + 1)) else Except.ok v) = _
      rw [if_neg (not_not_intro hr)]
    · intro hr
      rw [hbranch, hp]
      show (if ¬ ((-999 : Int) ≤ v ∧ v ≤ 999) then
          Except.error (AsmError.operandRange (idx + 1)) else Except.ok v) = _
      rw [if_pos hr]
  · intro rest line addr mem mc w hm he hlt
    exact assembleGo_cons_store tbl line rest idx addr mem mc w hm he hlt

/-- Witness for C6: `DAT` alone stores 0, `DAT 1000` is rejected with the
correct line number, and assembling the single line `DAT -7` stores -7 at
address 0. -/
theorem c6_witness :
    encodeLine [] 4 sDAT none = Except.ok 0 ∧
    encodeLine [] 4 sDAT (some ("1000".data)) =
      Except.error (AsmError.operandRange 5) ∧
    assembleGo [] [ "DAT -7".data ] 0 0 (List.replicate 100 none) [] =
      assembleGo [] [] 1 1 ((List.replicate 100 none).set 0 (some (-7)))
        [ listingEntry 0 (-7) ] := by
  refine ⟨(c6_dat [] 4).1, ?_, ?_⟩
  · exact ((c6_dat [] 4).2.1 ("1000".data) 1000 (by decide)).2 (by norm_num)
  · have h := (c6_dat [] 0).2.2 [] ("DAT -7".data) 0 (List.replicate 100 none)
      [] (-7) (by decide) (by decide) (by simp)
    simpa using h

/-! ## Numeral-parsing lemmas -/

theorem digitVal?_underscore (b : Nat) : digitVal? b '_' = none := by
  unfold digitVal?
  rw [if_neg (by decide), if_neg (by decide), if_neg (by decide)]

theorem digitsVal_cons (b acc : Nat) (c : Char) (rest : Str) (hcu : c ≠ '_') :
    digitsVal b acc (c :: rest) =
      (match digitVal? b c with
       | some d => digitsVal b (acc * b + d) rest
       | none => none) := by
  rw [digitsVal.eq_def]
  simp [hcu]

theorem digitsVal_all (b : Nat) : ∀ (ds : Str) (acc : Nat),
    (∀ c ∈ ds, (digitVal? b c).isSome = true) →
    digitsVal b acc ds =
      some (ds.foldl (fun a c => a * b + (digitVal? b c).getD 0) acc)
  | [], acc, _ => rfl
  | c :: rest, acc, h => by
    have hc : (digitVal? b c).isSome = true := h c (by simp)
    have hcu : c ≠ '_' := by
      intro hc'
      subst hc'
      rw [digitVal?_underscore] at hc
      simp at hc
    rw [digitsVal_cons b acc c rest hcu]
    cases hd : digitVal? b c with
    | none => rw [hd] at hc; simp at hc
    | some d =>
      show digitsVal b (acc * b + d) rest = _
      rw [digitsVal_all b rest (acc * b + d) (fun x hx => h x (by simp [hx]))]
      simp [hd]

theorem pyIntDigits_all (b : Nat) (ds : Str) (hne : ds ≠ [])
    (h : ∀ c ∈ ds, (digitVal? b c).isSome = true) (allowU : Bool) :
    pyIntDigits b allowU ds = some (radixVal b ds) := by
  cases ds with
  | nil => exact absurd rfl hne
  | cons c rest =>
    have hc : (digitVal? b c).isSome = true := h c (by simp)
    have hcu : c ≠ '_' := by
      intro hc'
      subst hc'
      rw [digitVal?_underscore] at hc
      simp at hc
    have hstep : pyIntDigits b allowU (c :: rest) =
        (match digitVal? b c with
         | some d => digitsVal b d rest
         | none => none) := by
      rw [pyIntDigits.eq_def]
      simp [hcu]
    rw [hstep]
    cases hd : digitVal? b c with
    | none => rw [hd] at hc; simp at hc
    | some d =>
      show digitsVal b d rest = _
      rw [digitsVal_all b rest d (fun x hx => h x (by simp [hx]))]
      unfold radixVal
      simp [hd]

theorem beginsWith_mem_second (p1 p2 : Char) (s : Str) :
    beginsWith (p1 :: p2 :: []) s = true → p2 ∈ s := by
  cases s with
  | nil => intro h; exact absurd h (by simp [beginsWith])
  | cons c rest =>
    cases rest with
    | nil => intro h; simp [beginsWith] at h
    | cons c2 r2 =>
      intro h
      simp [beginsWith] at h
      simp [h.2]

theorem stripRadixTag_base10 (cs : Str) : stripRadixTag 10 cs = (false, cs) := by
  cases cs with
  | nil => rfl
  | cons c0 rest =>
    cases rest with
    | nil => rfl
    | cons c r =>
      show (if c0 = '0' ∧ (10 : Nat) = 16 ∧ (c = 'x' ∨ c = 'X') then
              ((true : Bool), r)
            else if c0 = '0' ∧ (10 : Nat) = 2 ∧ (c = 'b' ∨ c = 'B') then
              ((true : Bool), r)
            else ((false : Bool), c0 :: c :: r)) = ((false : Bool), c0 :: c :: r)
      rw [if_neg (fun hh => absurd hh.2.1 (by decide)),
        if_neg (fun hh => absurd hh.2.1 (by decide))]

theorem parse_operand_eq (s : Str) (ln : Nat) :
    parse_operand s ln =
      (match (if beginsWith ('0' :: 'x' :: []) s then pyInt 16 s
              else if beginsWith ('0' :: 'b' :: []) s then pyInt 2 s
              else pyInt 10 s) with
       | some v => Except.ok v
       | none => Except.error (AsmError.invalidOperand (ln + 1))) := rfl

theorem opcodeDigits_facts (instr : Str) (d : Nat)
    (hmem : (instr, d) ∈ opcodeDigits) :
    instr ≠ sDAT ∧ instructionsGet instr = some (natRepr d) ∧
    ¬ (instr = sINP ∨ instr = sOUT ∨ instr = sHLT) := by
  simp only [opcodeDigits, List.mem_cons, List.not_mem_nil, or_false] at hmem
  rcases hmem with h | h | h | h | h | h | h | h <;>
    (injection h with h1 h2; subst h1; subst h2;
     exact ⟨by decide, by decide, by decide⟩)

/-! ## Claim C7 -/

/-- Claim C7: for the eight operand-requiring mnemonics a missing operand
raises `InvalidOperandError`; an operand token defined in the label table
resolves to its address without being parsed; an undefined token is parsed
as a literal whose radix is selected by the `0x` (hex) and `0b` (binary)
token heads, base 10 otherwise, and a parse failure surfaces as
`InvalidOperandError` (the only error `parse_operand` raises). -/
theorem c7_operand_resolution (tbl : List (Str × Nat)) (idx : Nat)
    (instr : Str) (d : Nat) (hmem : (instr, d) ∈ opcodeDigits) :
    encodeLine tbl idx instr none =
      Except.error (AsmError.invalidOperand (idx + 1)) ∧
    (∀ op a, lookupL tbl op = some a →
      encodeLine tbl idx instr (some op) = Except.ok (encodeWord d a)) ∧
    (∀ op e, lookupL tbl op = none →
      parse_operand op (idx + 1) = Except.error e →
      encodeLine tbl idx instr (some op) = Except.error e) ∧
    (∀ s ln e, parse_operand s ln = Except.error e →
      e = AsmError.invalidOperand (ln + 1)) ∧
    (∀ ds ln, ds ≠ [] → (∀ c ∈ ds, (digitVal? 16 c).isSome = true) →
      parse_operand ('0' :: 'x' :: ds) ln =
        Except.ok (Int.ofNat (radixVal 16 ds))) ∧
    (∀ ds ln, ds ≠ [] → (∀ c ∈ ds, (digitVal? 2 c).isSome = true) →
      parse_operand ('0' :: 'b' :: ds) ln =
        Except.ok (Int.ofNat (radixVal 2 ds))) ∧
    (∀ ds ln, ds ≠ [] → (∀ c ∈ ds, (digitVal? 10 c).isSome = true) →
      parse_operand ds ln = Except.ok (Int.ofNat (radixVal 10 ds))) := by
  obtain ⟨hne, hget, hio⟩ := opcodeDigits_facts instr d hmem
  refine ⟨encodeLine_op_none tbl idx instr (natRepr d) hne hget hio,
    ?_, ?_, ?_, ?_, ?_, ?_⟩
  · intro op a hl
    rw [encodeLine_op tbl idx instr (natRepr d) op hne hget hio,
      resolve_operand_label tbl idx op a hl]
    exact rfl
  · intro op e hl hp
    rw [encodeLine_op tbl idx instr (natRepr d) op hne hget hio,
      resolve_operand_lit_err tbl idx op e hl hp]
  · intro s ln e hp
    rw [parse_operand_eq] at hp
    cases hr : (if beginsWith ('0' :: 'x' :: []) s then pyInt 16 s
        else if beginsWith ('0' :: 'b' :: []) s then pyInt 2 s
        else pyInt 10 s) with
    | some v =>
      rw [hr] at hp
      simp at hp
    | none =>
      rw [hr] at hp
      simp at hp
      exact hp.symm
  · intro ds ln hne' hdig
    rw [parse_operand_eq]
    rw [if_pos (by simp [beginsWith])]
    have h1 : pyInt 16 ('0' :: 'x' :: ds) =
        (match pyIntDigits 16 true ds with
         | some n => some ((1 : Int) * Int.ofNat n)
         | none => none) := rfl
    rw [h1, pyIntDigits_all 16 ds hne' hdig]
    simp
  · intro ds ln hne' hdig
    rw [parse_operand_eq]
    have hbx : ¬ beginsWith ('0' :: 'x' :: []) ('0' :: 'b' :: ds) = true := by
      simp [beginsWith]
    rw [if_neg hbx, if_pos (by simp [beginsWith])]
    have h1 : pyInt 2 ('0' :: 'b' :: ds) =
        (match pyIntDigits 2 true ds with
         | some n => some ((1 : Int) * Int.ofNat n)
         | none => none) := rfl
    rw [h1, pyIntDigits_all 2 ds hne' hdig]
    simp
  · intro ds ln hne' hdig
    rw [parse_operand_eq]
    have hbx : ¬ beginsWith ('0' :: 'x' :: []) ds = true := by
      intro hb
      exact absurd (hdig 'x' (beginsWith_mem_second '0' 'x' ds hb)) (by decide)
    have hbb : ¬ beginsWith ('0' :: 'b' :: []) ds = true := by
      intro hb
      exact absurd (hdig 'b' (beginsWith_mem_second '0' 'b' ds hb)) (by decide)
    rw [if_neg hbx, if_neg hbb]
    have hpy : pyInt 10 ds = some (Int.ofNat (radixVal 10 ds)) := by
      cases ds with
      | nil => exact absurd rfl hne'
      | cons c rest =>
        have hc := hdig c (by simp)
        have hcm : c ≠ '-' := by
          intro h
          subst h
          exact absurd hc (by decide)
        have hcp : c ≠ '+' := by
          intro h
          subst h
          exact absurd hc (by decide)
        simp only [pyInt, if_neg hcm, if_neg hcp, stripRadixTag_base10]
        rw [pyIntDigits_all 10 (c :: rest) (by simp) hdig]
        simp
    rw [hpy]

/-- Witness for C7: missing operand error, label-first resolution, and the
three literal radixes. -/
theorem c7_witness :
    encodeLine [] 0 ("ADD".data) none =
      Except.error (AsmError.invalidOperand 1) ∧
    encodeLine [ ("loop".data, 3) ] 0 ("ADD".data) (some ("loop".data)) =
      Except.ok 103 ∧
    parse_operand ("0x1A".data) 7 = Except.ok 26 ∧
    parse_operand ("0b101".data) 7 = Except.ok 5 ∧
    parse_operand ("42".data) 7 = Except.ok 42 := by
  obtain ⟨h1, h2, h3, h4, h5, h6, h7⟩ :=
    c7_operand_resolution [] 0 ("ADD".data) 1 (by decide)
  obtain ⟨g1, g2, g3, g4, g5, g6, g7⟩ :=
    c7_operand_resolution [ ("loop".data, 3) ] 0 ("ADD".data) 1 (by decide)
  refine ⟨h1, ?_, ?_, ?_, ?_⟩
  · exact (g2 ("loop".data) 3 (by decide)).trans (by decide)
  · exact (h5 ("1A".data) 7 (by decide) (by decide)).trans (by decide)
  · exact (h6 ("101".data) 7 (by decide) (by decide)).trans (by decide)
  · exact (h7 ("42".data) 7 (by decide) (by decide)).trans (by decide)

/-! ## Claim C3 (corrected) -/

set_option maxRecDepth 20000 in
/-- Counterexample to claim C3 as stated: on `c3Prog` the label `far` is
recorded at address 100 (one hundred mnemonic-bearing lines precede its
label-only line), the operand `far` of line 1 resolves to 100 — outside
[0,99] — yet no `OperandRangeError` is raised: translation succeeds and the
word 6100, whose operand part is 100, is stored at address 0. -/
theorem c3_counterexample :
    first_pass c3Prog = Except.ok [ ("far".data, 100) ] ∧
    resolve_operand [ ("far".data, 100) ] 0 ("far".data) = Except.ok 100 ∧
    assemble c3Prog =
      Except.ok (c3Listing, some 6100 :: List.replicate 99 (some (0 : Int))) := by
  exact ⟨by decide, by decide, by decide⟩

/-- Claim C3 (amended): `OperandRangeError` is raised exactly when a
*literal-parsed* operand lies outside [0,99] or a `DAT` value lies outside
[-999,999]; an operand found in the label table is used without any range
check, so a label address outside [0,99] is encoded without error. -/
theorem c3_amended (tbl : List (Str × Nat)) (idx : Nat) (op : Str) :
    (∀ a, lookupL tbl op = some a → resolve_operand tbl idx op = Except.ok a) ∧
    (lookupL tbl op = none → ∀ v, parse_operand op (idx + 1) = Except.ok v →
      (¬ (0 ≤ v ∧ v ≤ 99) ↔
        resolve_operand tbl idx op =
          Except.error (AsmError.operandRange (idx + 1)))) ∧
    (∀ v, parse_operand op (idx + 1) = Except.ok v →
      (¬ ((-999 : Int) ≤ v ∧ v ≤ 999) ↔
        encodeLine tbl idx sDAT (some op) =
          Except.error (AsmError.operandRange (idx + 1)))) := by
  refine ⟨fun a hl => resolve_operand_label tbl idx op a hl, ?_, ?_⟩
  · intro hl v hp
    rw [resolve_operand_lit_ok tbl idx op v hl hp]
    constructor
    · intro hr
      rw [if_pos hr]
    · intro he
      by_contra hr
      rw [if_neg (not_not_intro hr)] at he
      simp at he
  · intro v hp
    have hbranch : encodeLine tbl idx sDAT (some op) =
        (match parse_operand op (idx + 1) with
         | Except.error e => Except.error e
         | Except.ok value =>
           if ¬ ((-999 : Int) ≤ value ∧ value ≤ 999) then
             Except.error (AsmError.operandRange (idx + 1))
           else Except.ok value) := rfl
    rw [hbranch, hp]
    show _ ↔ (if ¬ ((-999 : Int) ≤ v ∧ v ≤ 999) then
        Except.error (AsmError.operandRange (idx + 1)) else Except.ok v) = _
    constructor
    · intro hr
      rw [if_pos hr]
    · intro he
      by_contra hr
      rw [if_neg (not_not_intro hr)] at he
      simp at he

/-- Witness for the amended C3: a label address of 120 passes unchecked,
a literal 100 is rejected with `OperandRangeError`, and a `DAT` value of
-1000 is rejected likewise. -/
theorem c3_witness :
    resolve_operand [ ("far".data, 120) ] 0 ("far".data) = Except.ok 120 ∧
    resolve_operand [] 4 ("100".data) =
      Except.error (AsmError.operandRange 5) ∧
    encodeLine [] 2 sDAT (some ("-1000".data)) =
      Except.error (AsmError.operandRange 3) := by
  refine ⟨(c3_amended [ ("far".data, 120) ] 0 ("far".data)).1 120 (by decide),
    ?_, ?_⟩
  · exact ((c3_amended [] 4 ("100".data)).2.1 (by decide) 100 (by decide)).mp
      (by norm_num)
  · exact ((c3_amended [] 2 ("-1000".data)).2.2 (-1000) (by decide)).mp
      (by norm_num)

/-! ## Claim C4 (code bug) -/

/-- Claim C4 is contradicted by the code: `parse_operand` embeds
`line_number + 1` in its error although every caller already passes the
1-based line number, so the `InvalidOperandError` produced while parsing
the operand of (1-based) line k reports line k+1.  On the one-line program
`ADD zz` the unparsable-operand error cites line 2, while the
missing-operand error of the one-line program `ADD` (raised in `assemble`
itself) correctly cites line 1. -/
theorem c4_line_number_bug :
    parse_operand ("zz".data) 1 = Except.error (AsmError.invalidOperand 2) ∧
    assemble [ "ADD zz".data ] =
      Except.error (AsmFailure.asmError (AsmError.invalidOperand 2)) ∧
    assemble [ "ADD".data ] =
      Except.error (AsmFailure.asmError (AsmError.invalidOperand 1)) := by
  exact ⟨by decide, by decide, by decide⟩

/-! ## Claim C8 -/

/-- Claim C8: the lines of the emitted program that are memory-initializer
statements are exactly one `memory[i] = v;` per memory slot `i` holding a
value `v`, in increasing slot order, and none for unset slots (the fixed
preamble and execution loop contribute no such line). -/
theorem c8_memory_initializers (mem : List (Option Int)) :
    (c_code_lines mem).filter isMemInit =
      (setSlots mem).map (fun p => initStmt p.1 p.2) ∧
    ((setSlots mem).map Prod.fst).Pairwise (· < ·) ∧
    (∀ i v, (i, v) ∈ setSlots mem ↔ mem.get? i = some (some v)) := by
  refine ⟨?_, setSlotsGo_pairwise mem 0, ?_⟩
  · unfold c_code_lines
    rw [List.filter_append, List.filter_append, filter_cPreamble,
      filter_cPostamble]
    simp only [List.append_nil, List.nil_append]
    unfold memInitLines
    rw [filter_memInitGo, memInitGo_eq_map]
    rfl
  · intro i v
    rw [show setSlots mem = setSlotsGo 0 mem from rfl,
      setSlotsGo_mem_iff mem 0 i v]
    constructor
    · rintro ⟨k, rfl, hk⟩
      simpa using hk
    · intro h
      exact ⟨i, by omega, h⟩

/-! ## Claim C9 (corrected) -/

set_option maxRecDepth 20000 in
/-- Counterexample to claim C9 as stated: 101 lines of the unrecognized
mnemonic `FOO` form a source with more than 100 mnemonic-bearing lines, yet
pass 2 fails with `InvalidInstructionError` at line 1 — a structured
`AssemblyError`, not the claimed `IndexError`. -/
theorem c9_counterexample :
    100 < (c9Prog.filter hasMnem).length ∧
    assemble c9Prog =
      Except.error (AsmFailure.asmError (AsmError.invalidInstruction 1)) := by
  exact ⟨by decide, by decide⟩

/-- Claim C9 (amended): for a source with more than 100 mnemonic-bearing
lines, pass 1 raises nothing but (possibly) `DuplicateLabelError` — address
growth beyond 100 itself triggers no error — and pass 2 can never succeed:
it either raises a structured error from a line that independently fails,
or the Python `IndexError` when writing the 101st word into the fixed
100-slot memory. -/
theorem c9_overflow (lines : List Str)
    (h : 100 < (lines.filter hasMnem).length) :
    (∀ e, first_pass lines = Except.error e →
      ∃ n, e = AsmError.duplicateLabel n) ∧
    (∀ res, assemble lines ≠ Except.ok res) ∧
    ((∃ e, assemble lines = Except.error (AsmFailure.asmError e)) ∨
      assemble lines = Except.error AsmFailure.indexError) := by
  have hfp_only : ∀ e, first_pass lines = Except.error e →
      ∃ n, e = AsmError.duplicateLabel n := by
    intro e he
    exact fpGo_err lines 0 0 [] e (by simpa [first_pass] using he)
  have hnotok : ∀ res, assemble lines ≠ Except.ok res := by
    intro res hok
    unfold assemble at hok
    cases hfp : first_pass lines with
    | error e =>
      rw [hfp] at hok
      simp at hok
    | ok tbl =>
      rw [hfp] at hok
      have hle := asmGo_ok_le lines tbl 0 0 (List.replicate 100 none) [] res
        (by simp) hok
      simp at hle
      omega
  refine ⟨hfp_only, hnotok, ?_⟩
  cases ha : assemble lines with
  | ok res => exact absurd ha (hnotok res)
  | error f =>
    cases f with
    | asmError e => exact Or.inl ⟨e, rfl⟩
    | indexError => exact Or.inr rfl

set_option maxRecDepth 20000 in
/-- Witness for the amended C9: 101 `HLT` lines cannot assemble, and the
failure is precisely the `IndexError` at the 101st store. -/
theorem c9_witness :
    (∀ res, assemble c9Hlt ≠ Except.ok res) ∧
    assemble c9Hlt = Except.error AsmFailure.indexError := by
  exact ⟨(c9_overflow c9Hlt (by decide)).2.1, by decide⟩

/-! ## Claim C10 -/

/-- Claim C10: the line parser upper-cases only the mnemonic token (labels
and operands are kept verbatim), label lookup is exact string matching, and
an operand token that is not a stored key — e.g. one differing from a
defined label only in letter case — is parsed as a literal, so it raises
`InvalidOperandError` when it is not a valid number. -/
theorem c10_case_sensitivity :
    (∀ lab mn op : Str, lab ≠ [] → mn ≠ [] → op ≠ [] →
      (∀ c ∈ lab, pySpace c = false ∧ c ≠ '/') →
      (∀ c ∈ mn, pySpace c = false ∧ c ≠ '/') →
      (∀ c ∈ op, pySpace c = false ∧ c ≠ '/') →
      parse_line (lab ++ ':' :: ' ' :: (mn ++ ' ' :: op)) =
        ⟨some lab, some (pyUpper mn), some op⟩) ∧
    (∀ (lab op : Str) (a : Nat), op ≠ lab →
      lookupL [ (lab, a) ] op = none) ∧
    (∀ tbl idx (op : Str) e d instr, (instr, d) ∈ opcodeDigits →
      lookupL tbl op = none → parse_operand op (idx + 1) = Except.error e →
      encodeLine tbl idx instr (some op) = Except.error e) := by
  refine ⟨parse_line_schematic, ?_, ?_⟩
  · intro lab op a hne
    show (if lab = op then some a else lookupL [] op) = none
    rw [if_neg (fun hh => hne hh.symm)]
    rfl
  · intro tbl idx op e d instr hmem hl hp
    obtain ⟨hne, hget, hio⟩ := opcodeDigits_facts instr d hmem
    rw [encodeLine_op tbl idx instr (natRepr d) op hne hget hio,
      resolve_operand_lit_err tbl idx op e hl hp]

/-- Witness for C10: on the line `loop: lda LOOP` the mnemonic is
upper-cased while label and operand are verbatim; `LOOP` misses the table
entry for `loop` and, not being a number, raises `InvalidOperandError`. -/
theorem c10_witness :
    parse_line ("loop: lda LOOP".data) =
      ⟨some ("loop".data), some ("LDA".data), some ("LOOP".data)⟩ ∧
    lookupL [ ("loop".data, 0) ] ("LOOP".data) = none ∧
    encodeLine [ ("loop".data, 0) ] 0 ("LDA".data) (some ("LOOP".data)) =
      Except.error (AsmError.invalidOperand 2) := by
  obtain ⟨h1, h2, h3⟩ := c10_case_sensitivity
  refine ⟨?_, ?_, ?_⟩
  · exact h1 ("loop".data) ("lda".data) ("LOOP".data) (by decide) (by decide)
      (by decide) (by decide) (by decide) (by decide)
  · exact h2 ("loop".data) ("LOOP".data) 0 (by decide)
  · exact h3 [ ("loop".data, 0) ] 0 ("LOOP".data)
      (AsmError.invalidOperand 2) 5 ("LDA".data) (by decide) (by decide)
      (by decide)

end LMC
